import Mathlib

/-!
Verification of the normalization and filtering core of the calendar event
extractor backend (src/backend/app.py and src/backend/model.py).

Python strings are modelled as lists of characters (`Str`), dictionaries of
raw rows as association lists (`RawRow`), and the canonical Event record as a
structure with the nine fields produced by `normalize_event`.  The regular
expression operations the source uses (`re.findall`, `re.sub`, `re.split`
with the concrete patterns of the source) are modelled by explicit scanners
with the same leftmost, non-overlapping matching semantics.  Each scanner
consumes at least one character per step; to keep every definition reducible
by evaluation, the scanners recurse structurally on a fuel argument that the
wrapper instantiates with the input length, which therefore never runs out.
-/

set_option maxRecDepth 8000

/-- Python strings are modelled as lists of characters. -/
abbrev Str := List Char

/-- Literal helper: the character list of a Lean string literal. -/
def chars (s : String) : Str := s.data

/-- Model of Python's whitespace class (the ASCII part of `\s` and of
`str.strip`): space, tab, newline, carriage return, vertical tab, form feed. -/
def wsp (c : Char) : Bool :=
  c = ' ' || c = '\t' || c = '\n' || c = '\r' || c = Char.ofNat 11 || c = Char.ofNat 12

/-- Model of Python's `\d` (ASCII digits). -/
def isDig (c : Char) : Bool := c.isDigit

/-- Model of Python's `str.upper` (ASCII case mapping). -/
def upperStr (s : Str) : Str := s.map Char.toUpper

/-- Model of Python's `str.strip()`: drop whitespace from both ends. -/
def wtrim (s : Str) : Str := ((s.dropWhile wsp).reverse.dropWhile wsp).reverse

/-- Model of Python's `str.split(sep)` for a single-character separator:
splits on every occurrence, keeping empty pieces. -/
def splitChar (c : Char) (s : Str) : List Str :=
  s.foldr (fun ch acc =>
    match acc with
    | [] => [[ch]]
    | h :: t => if ch = c then [] :: h :: t else (ch :: h) :: t) [[]]

/-- Fuelled worker for `str.replace`: on a match of the (non-empty) pattern,
emit the replacement and resume behind the matched occurrence. -/
def replaceGo (pat rep : Str) : Nat → Str → Str
  | _, [] => []
  | 0, s => s
  | fuel + 1, c :: rest =>
    if pat.isPrefixOf (c :: rest) then
      rep ++ replaceGo pat rep fuel ((c :: rest).drop pat.length)
    else
      c :: replaceGo pat rep fuel rest

/-- Model of Python's `str.replace(pat, rep)` (all non-overlapping
occurrences, scanned left to right).  Every worker step consumes at least
one character (the source only replaces non-empty patterns), so the fuel is
never exhausted. -/
def replaceAll (pat rep s : Str) : Str :=
  if pat.isEmpty then s else replaceGo pat rep s.length s

/-- A raw AI-produced row: an association list of string keys and values
(the model of the Python dictionary `normalize_event` receives). -/
abbrev RawRow := List (Str × Str)

/-- Dictionary lookup on a raw row (first matching key). -/
def lookupRow : RawRow → Str → Option Str
  | [], _ => none
  | (k, v) :: rest, key => if k = key then some v else lookupRow rest key

/-- Model of the inner `get_value` of `normalize_event` (app.py lines
214-218): scan the alias keys in order; the first key present with a truthy
(non-empty) value wins and is returned stripped; otherwise the empty string. -/
def get_value (ev : RawRow) : List Str → Str
  | [] => []
  | k :: ks =>
    match lookupRow ev k with
    | some v => if v.isEmpty then get_value ev ks else wtrim v
    | none => get_value ev ks

/-- Alias list for the date field (app.py line 207). -/
def date_keys : List Str :=
  [chars "Date", chars "date", chars "exam_date", chars "Exam Date"]

/-- Alias list for the time field (app.py line 208). -/
def time_keys : List Str :=
  [chars "Time", chars "time", chars "exam_time", chars "Exam Time"]

/-- Alias list for the level field (app.py line 209). -/
def level_keys : List Str :=
  [chars "Major-Level", chars "major_level", chars "Major Level", chars "level",
   chars "Level", chars "Year", chars "Level-Major"]

/-- Alias list for the major field (app.py line 210). -/
def major_keys : List Str :=
  [chars "Offered To", chars "offered_to", chars "Offered_To", chars "major",
   chars "Major", chars "Program"]

/-- Alias list for the course-code field (app.py line 211). -/
def code_keys : List Str :=
  [chars "Course Code", chars "course_code", chars "Course_Code", chars "code", chars "Code"]

/-- Alias list for the course-name field (app.py line 212). -/
def name_keys : List Str :=
  [chars "Course Name", chars "course_name", chars "Course_Name", chars "name",
   chars "Name", chars "Title"]

/-- Attempt to match the optional group `\(\s*([^)]+?)\s*\)` of the level
pattern (app.py line 465) at the start of the input: an opening parenthesis,
at least one non-parenthesis character, a closing parenthesis.  Returns the
captured group and the rest of the input behind the match. -/
def parenScan : Str → Option (Str × Str)
  | '(' :: r =>
    let inner := r.takeWhile (fun c => c ≠ ')')
    match r.dropWhile (fun c => c ≠ ')') with
    | ')' :: r2 => if inner.isEmpty then none else some (inner, r2)
    | _ => none
  | _ => none

/-- Fuelled worker of the `re.findall` scan for the level pattern
`(\d+)\s*(?:\(\s*([^)]+?)\s*\))?` (app.py line 465, model.py line 471): scan
left to right; at every digit, take the maximal digit run (the level), skip
whitespace, optionally consume a parenthesized major; resume behind the
match.  Mirrors the loop of `parse_level_major_pairs`: the level is stripped
and the captured major is stripped and uppercased, an absent capture meaning
no major (Python `None`). -/
def scanPairs : Nat → Str → List (Str × Option Str)
  | _, [] => []
  | 0, _ => []
  | fuel + 1, c :: rest =>
    if isDig c then
      let ds := c :: rest.takeWhile isDig
      let r2 := (rest.dropWhile isDig).dropWhile wsp
      match parenScan r2 with
      | some (inner, r3) => (wtrim ds, some (upperStr (wtrim inner))) :: scanPairs fuel r3
      | none => (wtrim ds, none) :: scanPairs fuel r2
    else scanPairs fuel rest

/-- Model of `parse_level_major_pairs` (app.py lines 432-475) and the
identical `FilterModel._parse_level_major_pairs` (model.py lines 448-481):
empty input gives no pairs, otherwise the regex scan above.  The source's
`if level:` guard is vacuous because every match starts with a digit. -/
def parse_level_major_pairs (level_str : Str) : List (Str × Option Str) :=
  if level_str.isEmpty then [] else scanPairs level_str.length level_str

/-- Attempt to match `\s*:\s*` (app.py line 231) at the start of the input:
optional whitespace, a colon, optional (greedy) whitespace.  Returns the
rest of the input after the match. -/
def colonScan (s : Str) : Option Str :=
  match s.dropWhile wsp with
  | ':' :: r => some (r.dropWhile wsp)
  | _ => none

/-- Fuelled worker of `re.sub(r'\s*:\s*', ':', t)` (app.py line 231): every
colon together with the whitespace around it is replaced by a bare colon;
matches are leftmost and non-overlapping, scanning resumes behind each
match. -/
def subColon : Nat → Str → Str
  | _, [] => []
  | 0, s => s
  | fuel + 1, c :: rest =>
    match colonScan (c :: rest) with
    | some r2 => ':' :: subColon fuel r2
    | none => c :: subColon fuel rest

/-- Attempt to match `\s+(\d)` after a digit (the tail of the pattern
`(\d)\s+(\d)`, app.py line 233): at least one whitespace character followed
by a digit.  Returns the digit and the rest of the input behind it. -/
def wsDigitScan (s : Str) : Option (Char × Str) :=
  match s with
  | c :: _ =>
    if wsp c then
      match s.dropWhile wsp with
      | d :: r => if isDig d then some (d, r) else none
      | [] => none
    else none
  | [] => none

/-- Fuelled worker of `re.sub(r'(\d)\s+(\d)', r'\1\2', t)` (app.py line 233):
a digit, whitespace, and a digit collapse to the two digits.  Both digits
are part of the match, so scanning resumes behind the second digit — which
is why the substitution is not idempotent on inputs like `1 2 3`. -/
def subDigits : Nat → Str → Str
  | _, [] => []
  | 0, s => s
  | fuel + 1, c :: rest =>
    if isDig c then
      match wsDigitScan rest with
      | some (d, r) => c :: d :: subDigits fuel r
      | none => c :: subDigits fuel rest
    else c :: subDigits fuel rest

/-- Attempt to match `\s+to\s+` (app.py line 235) at the start of the input:
at least one whitespace character, the literal `to`, at least one whitespace
character (trailing run consumed greedily). -/
def toScan (s : Str) : Option Str :=
  match s with
  | c :: _ =>
    if wsp c then
      match s.dropWhile wsp with
      | 't' :: 'o' :: r =>
        match r with
        | c2 :: _ => if wsp c2 then some (r.dropWhile wsp) else none
        | [] => none
      | _ => none
    else none
  | [] => none

/-- Fuelled worker of `re.sub(r'\s+to\s+', ' to ', t)` (app.py line 235): a
whitespace-padded literal `to` is normalized to exactly one space on each
side; non-overlapping, resuming behind each match. -/
def subTo : Nat → Str → Str
  | _, [] => []
  | 0, s => s
  | fuel + 1, c :: rest =>
    match toScan (c :: rest) with
    | some r2 => ' ' :: 't' :: 'o' :: ' ' :: subTo fuel r2
    | none => c :: subTo fuel rest

/-- The time cleanup of `normalize_event` (app.py lines 229-235), applied in
source order: collapse whitespace around colons, collapse whitespace between
adjacent digits, normalize the `to` connective. -/
def cleanTime (t : Str) : Str :=
  let t1 := subColon t.length t
  let t2 := subDigits t1.length t1
  subTo t2.length t2

/-- The level cleanup of `normalize_event` (app.py lines 238-242): strip the
literal words `Level` and `level`, strip whitespace, replace `+` by `,`. -/
def cleanLevel (s : Str) : Str :=
  replaceAll (chars "+") (chars ",")
    (wtrim (replaceAll (chars "level") [] (replaceAll (chars "Level") [] s)))

/-- The major cleanup of `normalize_event` (app.py lines 245-251): uppercase,
replace `/` by `,`, and if a comma is present re-join the comma-separated
segments with each segment stripped. -/
def cleanMajor (s : Str) : Str :=
  let u := replaceAll (chars "/") (chars ",") (upperStr s)
  if u.any (fun c => c = ',') then
    List.intercalate (chars ",") ((splitChar ',' u).map wtrim)
  else u

/-- A separator character of the offered-to pattern `\s*[/,+]\s*`
(app.py line 553, model.py line 538). -/
def isSep (c : Char) : Bool := c = '/' || c = ',' || c = '+'

/-- Attempt to match `\s*[/,+]\s*` at the start of the input: optional
whitespace, a separator, optional (greedy) whitespace. -/
def sepScan (s : Str) : Option Str :=
  match s.dropWhile wsp with
  | c :: r => if isSep c then some (r.dropWhile wsp) else none
  | [] => none

/-- Fuelled worker of `re.split(r'\s*[/,+]\s*', s)` (app.py line 553,
model.py line 538): pieces between non-overlapping separator matches, empty
pieces kept.  The accumulator holds the current piece reversed. -/
def splitSepsGo : Nat → Str → Str → List Str
  | _, [], acc => [acc.reverse]
  | 0, s, acc => [acc.reverse ++ s]
  | fuel + 1, c :: rest, acc =>
    match sepScan (c :: rest) with
    | some r2 => acc.reverse :: splitSepsGo fuel r2 []
    | none => splitSepsGo fuel rest (c :: acc)

/-- The separator split of `check_major_match`. -/
def splitSeps (s : Str) : List Str := splitSepsGo s.length s []

/-- The per-pair loop of `check_level_match` (app.py lines 506-514, model.py
lines 502-510).  `fl` is the stripped filter level; `fmU` is
`filter_major.strip().upper()` when `filter_major` is truthy, else Python
`None`.  A pair whose level matches succeeds immediately when its major is
falsy (absent or empty); when the major is present and non-empty it succeeds
only if `fmU` is truthy and equal to it, otherwise the scan continues. -/
def levelLoop (fl : Str) (fmU : Option Str) : List (Str × Option Str) → Bool
  | [] => false
  | (lv, mj) :: rest =>
    if lv = fl then
      match mj with
      | some m =>
        if m.isEmpty then true
        else
          match fmU with
          | some u => if ¬ u.isEmpty ∧ m = u then true else levelLoop fl fmU rest
          | none => levelLoop fl fmU rest
      | none => true
    else levelLoop fl fmU rest

/-- Model of `check_level_match` (app.py lines 478-516) and the identical
`FilterModel._check_level_match` (model.py lines 483-512): falsy event level
or filter level refuse; no parsed pairs refuse; otherwise scan the pairs with
the loop above against the stripped filter level and the stripped, uppercased
filter major. -/
def check_level_match (event_level filter_level filter_major : Str) : Bool :=
  if event_level.isEmpty || filter_level.isEmpty then false
  else
    let pairs := parse_level_major_pairs event_level
    if pairs.isEmpty then false
    else
      let fl := wtrim filter_level
      let fmU : Option Str :=
        if filter_major.isEmpty then none else some (upperStr (wtrim filter_major))
      levelLoop fl fmU pairs

/-- Membership of a string in a list of strings (Python's `in`). -/
def memStr (x : Str) : List Str → Bool
  | [] => false
  | y :: ys => if x = y then true else memStr x ys

/-- The token list of `check_major_match` (app.py lines 553-554, model.py
lines 538-539): split the normalized offered-to string on the separator
pattern, strip each token, keep the non-empty ones. -/
def majorTokens (eo : Str) : List Str :=
  ((splitSeps eo).map wtrim).filter (fun m => ¬ m.isEmpty)

/-- Model of `check_major_match` (app.py lines 519-556) and the identical
`FilterModel._check_major_match` (model.py lines 514-541): empty filter major
or empty offered-to refuse; the normalized (stripped, uppercased) offered-to
equal to `ALL` matches unconditionally; otherwise the normalized filter major
must be one of the offered-to tokens. -/
def check_major_match (event_offered filter_major : Str) : Bool :=
  if filter_major.isEmpty then false
  else if event_offered.isEmpty then false
  else
    let eo := upperStr (wtrim event_offered)
    let fm := upperStr (wtrim filter_major)
    if eo = chars "ALL" then true
    else memStr fm (majorTokens eo)

/-- The canonical Event record, the exact shape `normalize_event` returns
(app.py lines 283-293).  The confidence is the fixed constant 0.95 the
source attaches to every normalized row. -/
structure Event where
  date : Str
  time : Str
  title : Str
  description : Str
  course_code : Str
  course_name : Str
  major_level : Str
  offered_to : Str
  confidence : ℚ
deriving DecidableEq

/-- The fixed confidence constant 0.95 that `normalize_event` attaches to
every row (app.py line 292), written as the reduced fraction 19/20 so that
equality of Events is decidable by evaluation. -/
def confidence095 : ℚ := ⟨19, 20, by norm_num, by norm_num⟩

/-- Decimal digits of a natural number. -/
def decDigits (n : Nat) : Str := Nat.toDigits 10 n

/-- Zero-pad a decimal representation to two digits. -/
def pad2 (n : Nat) : Str :=
  List.replicate (2 - (decDigits n).length) '0' ++ decDigits n

/-- Zero-pad a decimal representation to four digits. -/
def pad4 (n : Nat) : Str :=
  List.replicate (4 - (decDigits n).length) '0' ++ decDigits n

/-- ISO-8601 rendering of a year, month, day triple. -/
def isoOf (y m d : Nat) : Str := pad4 y ++ '-' :: (pad2 m ++ '-' :: pad2 d)

/-- A non-empty all-digit string. -/
def digitsOnly (s : Str) : Bool := ¬ s.isEmpty && s.all isDig

/-- Decimal value of a digit string. -/
def natOf (s : Str) : Nat := s.foldl (fun n c => 10 * n + (c.toNat - 48)) 0

/-- Model of the external `dateutil.parser.parse(date_str, fuzzy=True,
dayfirst=True)` call followed by `.date().isoformat()` (app.py lines
256-258).  The library is an external collaborator; it is modelled on the two
date shapes this system produces and consumes: `DD/MM/YYYY` (day first, as
the parse is configured) and ISO `YYYY-MM-DD`, with plausible day and month
ranges.  Any other input is a parse failure, modelling `ParserError`. -/
def parseDateFuzzy (s : Str) : Option Str :=
  match splitChar '/' s with
  | [d, m, y] =>
    if digitsOnly d && digitsOnly m && digitsOnly y && y.length = 4
        && decide (1 ≤ natOf d) && decide (natOf d ≤ 31)
        && decide (1 ≤ natOf m) && decide (natOf m ≤ 12) then
      some (isoOf (natOf y) (natOf m) (natOf d))
    else none
  | _ =>
    match splitChar '-' s with
    | [y, m, d] =>
      if digitsOnly d && digitsOnly m && digitsOnly y && y.length = 4
          && decide (1 ≤ natOf d) && decide (natOf d ≤ 31)
          && decide (1 ≤ natOf m) && decide (natOf m ≤ 12) then
        some (isoOf (natOf y) (natOf m) (natOf d))
      else none
    | _ => none

/-- The date resolution of `normalize_event` (app.py lines 254-260): keep the
raw date string unless it is non-empty and the fuzzy parse succeeds, in which
case take the ISO form. -/
def dateResolve (s : Str) : Str :=
  if s.isEmpty then s else
    match parseDateFuzzy s with
    | some d => d
    | none => s

/-- The title derivation of `normalize_event` (app.py lines 263-270). -/
def titleOf (code_str name_str : Str) : Str :=
  if ¬ code_str.isEmpty ∧ ¬ name_str.isEmpty then code_str ++ chars ": " ++ name_str
  else if ¬ name_str.isEmpty then name_str
  else if ¬ code_str.isEmpty then code_str
  else chars "Exam"

/-- The description derivation of `normalize_event` (app.py lines 273-281,
287): the newline-join of the present labelled parts, in the fixed order
date (raw), time, level, major. -/
def descrOf (date_str time_str level_str major_str : Str) : Str :=
  List.intercalate (chars "\n")
    ((if date_str.isEmpty then [] else [chars "Date: " ++ date_str]) ++
     (if time_str.isEmpty then [] else [chars "Time: " ++ time_str]) ++
     (if level_str.isEmpty then [] else [chars "Major-Level: " ++ level_str]) ++
     (if major_str.isEmpty then [] else [chars "Offered To: " ++ major_str]))

/-- Model of `normalize_event` (app.py lines 203-293): extract each field
through its alias list, clean time, level and major when non-empty, resolve
the date to ISO when it parses, derive title and description, and attach the
constant confidence. -/
def normalize_event (event : RawRow) : Event :=
  let date_str := get_value event date_keys
  let time0 := get_value event time_keys
  let level0 := get_value event level_keys
  let major0 := get_value event major_keys
  let code_str := get_value event code_keys
  let name_str := get_value event name_keys
  let time_str := if time0.isEmpty then time0 else cleanTime time0
  let level_str := if level0.isEmpty then level0 else cleanLevel level0
  let major_str := if major0.isEmpty then major0 else cleanMajor major0
  { date := dateResolve date_str
    time := time_str
    title := titleOf code_str name_str
    description := descrOf date_str time_str level_str major_str
    course_code := code_str
    course_name := name_str
    major_level := level_str
    offered_to := major_str
    confidence := confidence095 }

/-- The canonical feed-back row of the idempotence property: an Event turned
back into a RawRow through its canonical keys. -/
def canonical_row (e : Event) : RawRow :=
  [(chars "date", e.date), (chars "time", e.time),
   (chars "major_level", e.major_level), (chars "offered_to", e.offered_to),
   (chars "course_code", e.course_code), (chars "course_name", e.course_name)]

/-- The per-event match decision shared by the strict filter loops: the
event's level (stripped) and offered-to (stripped, uppercased) are checked
against the stripped filter level and the stripped, uppercased filter major
(app.py lines 593-608, model.py lines 566-581).  Both checks must pass. -/
def eventMatches (major_level offered_to : Str) (e : Event) : Bool :=
  let filter_level := wtrim major_level
  let filter_major := upperStr (wtrim offered_to)
  let event_level := wtrim e.major_level
  let event_offered := upperStr (wtrim e.offered_to)
  check_level_match event_level filter_level filter_major &&
    check_major_match event_offered filter_major

/-- The description-line rewrite of `filter_events_by_criteria` (app.py lines
620-624): a line starting with the level-label prefix is replaced by the
label with the new level; any other line is kept. -/
def rewriteLine (fl : Str) (line : Str) : Str :=
  if (chars "Major-Level:").isPrefixOf line then chars "Major-Level: " ++ fl else line

/-- The post-match copy-and-rewrite of `filter_events_by_criteria` (app.py
lines 609-625): a copy of the event with `major_level` overwritten by the
stripped filter level, and, when the description is non-empty, each
`Major-Level:` line of the description rewritten accordingly. -/
def rewriteEvent (major_level : Str) (e : Event) : Event :=
  let fl := wtrim major_level
  { e with
    major_level := fl
    description :=
      if e.description.isEmpty then e.description
      else List.intercalate (chars "\n")
        ((splitChar '\n' e.description).map (rewriteLine fl)) }

/-- The filter loop of `filter_events_by_criteria` (app.py lines 596-630). -/
def filterLoop (major_level offered_to : Str) : List Event → List Event
  | [] => []
  | e :: rest =>
    if eventMatches major_level offered_to e then
      rewriteEvent major_level e :: filterLoop major_level offered_to rest
    else filterLoop major_level offered_to rest

/-- Model of `filter_events_by_criteria` (app.py lines 559-633): empty input
or a missing criterion yields the empty list (with a logged warning, outside
this model); otherwise the strict filter loop with the post-match rewrite. -/
def filter_events_by_criteria (events : List Event) (major_level offered_to : Str) :
    List Event :=
  if events.isEmpty then []
  else if major_level.isEmpty || offered_to.isEmpty then []
  else filterLoop major_level offered_to events

/-- The filter loop of `FilterModel._local_filter` (model.py lines 569-585):
the same match decision, but the matching event itself is appended, with no
copy and no level rewrite.  On the canonical Event record the source's
`event.get("Major-Level", event.get("major_level", ""))` probe resolves to
the `major_level` field (and likewise for `offered_to`), so the decision is
the shared `eventMatches`. -/
def localLoop (major_level offered_to : Str) : List Event → List Event
  | [] => []
  | e :: rest =>
    if eventMatches major_level offered_to e then
      e :: localLoop major_level offered_to rest
    else localLoop major_level offered_to rest

/-- Model of `FilterModel._local_filter` (model.py lines 543-588): a missing
criterion yields the empty list; otherwise the strict filter loop without
rewrite. -/
def local_filter (events : List Event) (major_level offered_to : Str) : List Event :=
  if major_level.isEmpty || offered_to.isEmpty then []
  else localLoop major_level offered_to events

/-- The duplicate key test of the extraction accumulator (app.py line 335):
equal course code and equal date. -/
def sameKey (a b : Event) : Prop := a.course_code = b.course_code ∧ a.date = b.date

instance : DecidableRel sameKey := fun a b => by unfold sameKey; infer_instance

/-- One accumulation step of the PDF extraction loops (app.py lines 330-336
and 356-360): a normalized event is appended only when its course code is
non-empty and no accumulated event shares its (course_code, date) key. -/
def insertEvent (acc : List Event) (n : Event) : List Event :=
  if n.course_code.isEmpty then acc
  else if acc.any (fun e => decide (sameKey e n)) then acc
  else acc ++ [n]

/-- Accumulate one batch of raw rows (one PDF page's parsed AI response, or
the text-extraction fallback batch) into the running event list. -/
def accumulateBatch (acc : List Event) (page : List RawRow) : List Event :=
  page.foldl (fun a r => insertEvent a (normalize_event r)) acc

/-- Model of `validate_and_fix_events` (app.py lines 392-429): drop events
with an empty course code or an empty date; the date-range check only logs a
warning and never drops, so it has no behavioral content here. -/
def validate_and_fix_events (events : List Event) : List Event :=
  events.filter (fun e => ¬ e.course_code.isEmpty && ¬ e.date.isEmpty)

/-- The pure accumulation core of the PDF branch of
`extract_all_events_from_file` (app.py lines 308-360, 385-389): the parsed
per-page responses (and, when the running count is below the threshold, the
text-extraction response as one further batch — the step logic is identical,
so the batches are quantified over) are folded through the deduplicating
accumulator and then validated. -/
def extract_all_events_pdf (batches : List (List RawRow)) : List Event :=
  validate_and_fix_events (batches.foldl accumulateBatch [])

/-- The pure core of the image branch of `extract_all_events_from_file`
(app.py lines 362-389): every normalized event with a non-empty course code
is appended, with no duplicate check, and the list is then validated. -/
def extract_all_events_image (raws : List RawRow) : List Event :=
  validate_and_fix_events
    (raws.foldl
      (fun acc r =>
        let n := normalize_event r
        if n.course_code.isEmpty then acc else acc ++ [n]) [])

/-! ### Helper lemmas about the strict filter -/

theorem filterLoop_eq_filter_map (ml ot : Str) (l : List Event) :
    filterLoop ml ot l = (l.filter (eventMatches ml ot)).map (rewriteEvent ml) := by
  induction l with
  | nil => rfl
  | cons e rest ih =>
    by_cases h : eventMatches ml ot e = true
    · simp [filterLoop, List.filter_cons, h, ih]
    · simp [filterLoop, List.filter_cons, h, ih]

theorem localLoop_eq_filter (ml ot : Str) (l : List Event) :
    localLoop ml ot l = l.filter (eventMatches ml ot) := by
  induction l with
  | nil => rfl
  | cons e rest ih =>
    by_cases h : eventMatches ml ot e = true
    · simp [localLoop, List.filter_cons, h, ih]
    · simp [localLoop, List.filter_cons, h, ih]

theorem eventMatches_of_empty_criteria (ml ot : Str) (e : Event)
    (h : ml.isEmpty || ot.isEmpty) : eventMatches ml ot e = false := by
  rcases Bool.or_eq_true _ _ |>.mp h with h1 | h1
  · have : ml = [] := List.isEmpty_iff.mp h1
    subst this
    simp [eventMatches, check_level_match, wtrim]
  · have : ot = [] := List.isEmpty_iff.mp h1
    subst this
    simp [eventMatches, check_major_match, wtrim, upperStr]

theorem filter_events_eq_filter_map (events : List Event) (ml ot : Str) :
    filter_events_by_criteria events ml ot =
      (events.filter (eventMatches ml ot)).map (rewriteEvent ml) := by
  unfold filter_events_by_criteria
  by_cases he : events.isEmpty
  · have : events = [] := List.isEmpty_iff.mp he
    subst this
    simp
  · simp only [he, Bool.false_eq_true, if_false]
    by_cases hc : (ml.isEmpty || ot.isEmpty) = true
    · have hnil : events.filter (eventMatches ml ot) = [] :=
        List.filter_eq_nil.mpr fun a _ => by
          simp [eventMatches_of_empty_criteria ml ot a hc]
      simp [hc, hnil]
    · simp [hc, filterLoop_eq_filter_map]

theorem local_filter_eq_filter (events : List Event) (ml ot : Str) :
    local_filter events ml ot = events.filter (eventMatches ml ot) := by
  unfold local_filter
  by_cases hc : (ml.isEmpty || ot.isEmpty) = true
  · have hnil : events.filter (eventMatches ml ot) = [] :=
      List.filter_eq_nil.mpr fun a _ => by
        simp [eventMatches_of_empty_criteria ml ot a hc]
    simp [hc, hnil]
  · simp [hc, localLoop_eq_filter]

/-! ### Claim theorems -/

/-- C6: `parse_level_major_pairs` satisfies the authoritative example
mappings of the specification: compound levels with per-level parenthesized
majors, comma- and plus-separated bare levels, dash-separated annotated
levels, and the empty string, with every extracted major label uppercased
and trimmed. -/
theorem C6_parse_level_major_pairs_examples :
    parse_level_major_pairs (chars "7 (AI) 9 (CS) 9(CYS)") =
      [(chars "7", some (chars "AI")), (chars "9", some (chars "CS")),
       (chars "9", some (chars "CYS"))] ∧
    parse_level_major_pairs (chars "5,7") = [(chars "5", none), (chars "7", none)] ∧
    parse_level_major_pairs (chars "5+7") = [(chars "5", none), (chars "7", none)] ∧
    parse_level_major_pairs (chars "5 (CS)-7(CS)") =
      [(chars "5", some (chars "CS")), (chars "7", some (chars "CS"))] ∧
    parse_level_major_pairs (chars "") = [] := by
  decide

/-- C10: `filter_events_by_criteria` preserves input order: its output is
exactly the matching subsequence of the input, each output record derived
from its own distinct input Event by the post-match rewrite, in input order,
and it never produces more records than it received. -/
theorem C10_filter_order_preserving :
    ∀ (events : List Event) (ml ot : Str),
      filter_events_by_criteria events ml ot =
        (events.filter (eventMatches ml ot)).map (rewriteEvent ml) ∧
      (filter_events_by_criteria events ml ot).length ≤ events.length := by
  intro events ml ot
  refine ⟨filter_events_eq_filter_map events ml ot, ?_⟩
  rw [filter_events_eq_filter_map events ml ot, List.length_map]
  exact events.length_filter_le _

/-- A concrete normalized Event with a compound level, used to separate the
two filter paths: the strict path rewrites its level, the fallback path
returns it unchanged. -/
def sampleEvent : Event :=
  { date := chars "2025-12-23"
    time := chars "9:00 to 11:00"
    title := chars "CSC331"
    description := chars "Date: 23/12/2025\nMajor-Level: 5,7\nOffered To: CS,AI"
    course_code := chars "CSC331"
    course_name := []
    major_level := chars "5,7"
    offered_to := chars "CS,AI"
    confidence := confidence095 }

/-- C1 (counterexample): the fallback `FilterModel._local_filter` does not
produce results identical to `filter_events_by_criteria` on the same events
and criteria: on an event with compound level `5,7` filtered at level `5`,
the strict path returns a copy with `major_level` rewritten to `5` (and the
description line rewritten), while the fallback returns the original record
with `major_level` still `5,7`. -/
theorem C1_counterexample_fallback_differs :
    local_filter [sampleEvent] (chars "5") (chars "CS") ≠
      filter_events_by_criteria [sampleEvent] (chars "5") (chars "CS") := by
  decide

/-- C1 (amended): the fallback filter selects exactly the same events as the
deterministic strict path — the same subsequence of the input, in the same
order, under the same match decision — but returns the selected records
unchanged, whereas `filter_events_by_criteria` additionally applies the
post-match rewrite (level overwritten with the stripped filter level,
`Major-Level:` description lines rewritten) to each selected record. -/
theorem C1_amended_fallback_same_selection :
    ∀ (events : List Event) (ml ot : Str),
      local_filter events ml ot = events.filter (eventMatches ml ot) ∧
      filter_events_by_criteria events ml ot =
        (events.filter (eventMatches ml ot)).map (rewriteEvent ml) :=
  fun events ml ot =>
    ⟨local_filter_eq_filter events ml ot, filter_events_eq_filter_map events ml ot⟩

/-- C8: when either required criterion is the empty string, both
`filter_events_by_criteria` and the fallback `FilterModel._local_filter`
return the empty list (the source additionally logs a warning, which has no
behavioral content here); as total functions of the model they never raise. -/
theorem C8_missing_criteria_empty :
    ∀ (events : List Event) (ml ot : Str), ml = [] ∨ ot = [] →
      filter_events_by_criteria events ml ot = [] ∧ local_filter events ml ot = [] := by
  intro events ml ot h
  rcases h with h | h <;> subst h <;>
    exact ⟨by simp [filter_events_by_criteria], by simp [local_filter]⟩

/-- Witness for C8 at a concrete non-empty event list and an empty level
criterion. -/
theorem C8_missing_criteria_empty_witness :
    (([] : Str) = [] ∨ chars "CS" = []) ∧
      (filter_events_by_criteria [sampleEvent] [] (chars "CS") = [] ∧
        local_filter [sampleEvent] [] (chars "CS") = []) :=
  ⟨Or.inl rfl, C8_missing_criteria_empty [sampleEvent] [] (chars "CS") (Or.inl rfl)⟩

/-- C9: `normalize_event` is total on raw rows (it is a total function of
the model, returning the nine-field Event record by construction), its
confidence is always exactly 0.95, and its title is the fixed placeholder
`Exam` whenever both the course code and the course name extract as empty. -/
theorem C9_normalize_event_total_shape :
    ∀ row : RawRow,
      (normalize_event row).confidence = 0.95 ∧
      ((normalize_event row).course_code = [] → (normalize_event row).course_name = [] →
        (normalize_event row).title = chars "Exam") := by
  intro row
  constructor
  · show confidence095 = 0.95
    rw [confidence095, Rat.mk'_eq_divInt]
    norm_num [Rat.divInt_eq_div]
  · intro h1 h2
    show titleOf (get_value row code_keys) (get_value row name_keys) = chars "Exam"
    have h1' : get_value row code_keys = [] := h1
    have h2' : get_value row name_keys = [] := h2
    rw [h1', h2']
    decide

/-- Witness for C9 at the empty raw row, whose code and name extract empty. -/
theorem C9_normalize_event_total_shape_witness :
    (normalize_event []).confidence = 0.95 ∧ (normalize_event []).title = chars "Exam" :=
  ⟨(C9_normalize_event_total_shape []).1,
    (C9_normalize_event_total_shape []).2 (by decide) (by decide)⟩

/-- C7: every record returned by `filter_events_by_criteria` derives from a
member of the input list: it agrees with it on date, time, title, course
code, course name, offered-to and confidence; its `major_level` is the
stripped filter level (the `filter_level` the source binds at app.py
line 593); and its description is the original one with exactly the lines
beginning with `Major-Level:` rewritten to the new value, all other lines
and the line order unchanged (no rewrite at all when the description is
empty).  The input Event itself is returned untouched inside the input list
— the model is pure, mirroring the source's explicit copy. -/
theorem C7_rewrite_frame :
    ∀ (events : List Event) (ml ot : Str) (e' : Event),
      e' ∈ filter_events_by_criteria events ml ot →
      ∃ e ∈ events, eventMatches ml ot e = true ∧
        e'.date = e.date ∧ e'.time = e.time ∧ e'.title = e.title ∧
        e'.course_code = e.course_code ∧ e'.course_name = e.course_name ∧
        e'.offered_to = e.offered_to ∧ e'.confidence = e.confidence ∧
        e'.major_level = wtrim ml ∧
        e'.description =
          (if e.description.isEmpty then e.description
           else List.intercalate (chars "\n")
             ((splitChar '\n' e.description).map (rewriteLine (wtrim ml)))) := by
  intro events ml ot e' he
  rw [filter_events_eq_filter_map] at he
  rcases List.mem_map.mp he with ⟨e, hef, rfl⟩
  rcases List.mem_filter.mp hef with ⟨hee, hm⟩
  exact ⟨e, hee, hm, rfl, rfl, rfl, rfl, rfl, rfl, rfl, rfl, rfl⟩

/-- Witness for C7 at a concrete matching event and its rewritten output. -/
theorem C7_rewrite_frame_witness :
    ∃ e ∈ [sampleEvent], eventMatches (chars "5") (chars "CS") e = true ∧
      (rewriteEvent (chars "5") sampleEvent).date = e.date ∧
      (rewriteEvent (chars "5") sampleEvent).time = e.time ∧
      (rewriteEvent (chars "5") sampleEvent).title = e.title ∧
      (rewriteEvent (chars "5") sampleEvent).course_code = e.course_code ∧
      (rewriteEvent (chars "5") sampleEvent).course_name = e.course_name ∧
      (rewriteEvent (chars "5") sampleEvent).offered_to = e.offered_to ∧
      (rewriteEvent (chars "5") sampleEvent).confidence = e.confidence ∧
      (rewriteEvent (chars "5") sampleEvent).major_level = wtrim (chars "5") ∧
      (rewriteEvent (chars "5") sampleEvent).description =
        (if e.description.isEmpty then e.description
         else List.intercalate (chars "\n")
           ((splitChar '\n' e.description).map (rewriteLine (wtrim (chars "5"))))) :=
  C7_rewrite_frame [sampleEvent] (chars "5") (chars "CS")
    (rewriteEvent (chars "5") sampleEvent)
    (by
      have h : filter_events_by_criteria [sampleEvent] (chars "5") (chars "CS") =
          [rewriteEvent (chars "5") sampleEvent] := by decide
      rw [h]
      exact List.mem_singleton.mpr rfl)

theorem memStr_eq_true_iff (x : Str) (l : List Str) : memStr x l = true ↔ x ∈ l := by
  induction l with
  | nil => simp [memStr]
  | cons y ys ih =>
    by_cases h : x = y
    · subst h; simp [memStr]
    · simp [memStr, h, ih]

/-- C5: `check_major_match` refuses empty inputs; the normalized offered-to
sentinel `ALL` matches any non-empty filter major unconditionally; otherwise
the match holds exactly when the stripped, uppercased filter major is one of
the tokens obtained by splitting the normalized offered-to on `/`, `,` or
`+` with optional surrounding whitespace, each token stripped. -/
theorem C5_check_major_match_spec :
    ∀ eo fm : Str,
      ((fm = [] ∨ eo = []) → check_major_match eo fm = false) ∧
      (fm ≠ [] → upperStr (wtrim eo) = chars "ALL" → check_major_match eo fm = true) ∧
      (fm ≠ [] → eo ≠ [] → upperStr (wtrim eo) ≠ chars "ALL" →
        (check_major_match eo fm = true ↔
          upperStr (wtrim fm) ∈ majorTokens (upperStr (wtrim eo)))) := by
  intro eo fm
  refine ⟨?_, ?_, ?_⟩
  · rintro (rfl | rfl)
    · simp [check_major_match]
    · simp [check_major_match]
  · intro hfm hall
    have h1 : fm.isEmpty = false := by
      rcases fm with _ | _
      · exact absurd rfl hfm
      · rfl
    have h2 : eo ≠ [] := by
      rintro rfl
      exact absurd hall (by decide)
    have h3 : eo.isEmpty = false := by
      rcases eo with _ | _
      · exact absurd rfl h2
      · rfl
    simp [check_major_match, h1, h3, hall]
  · intro hfm heo hne
    have h1 : fm.isEmpty = false := by
      rcases fm with _ | _
      · exact absurd rfl hfm
      · rfl
    have h3 : eo.isEmpty = false := by
      rcases eo with _ | _
      · exact absurd rfl heo
      · rfl
    simp [check_major_match, h1, h3, hne, memStr_eq_true_iff]

/-- Witness for C5: the `ALL` sentinel matches a concrete non-empty major. -/
theorem C5_check_major_match_spec_witness :
    chars "CS" ≠ ([] : Str) ∧ upperStr (wtrim (chars "ALL")) = chars "ALL" ∧
      check_major_match (chars "ALL") (chars "CS") = true :=
  ⟨by decide, by decide,
    (C5_check_major_match_spec (chars "ALL") (chars "CS")).2.1 (by decide) (by decide)⟩

/-- The scan of the parsed pairs succeeds exactly when some pair carries the
wanted level and either a falsy major (absent in the parse, or stripping to
empty) or precisely the normalized filter major.  When the normalized filter
major is empty the explicit comparison branch never fires, but such a pair
can only equal it by being empty itself, which the falsy branch already
accepts — so the disjunction is exact. -/
theorem levelLoop_eq_true_iff (fl u : Str) (ps : List (Str × Option Str)) :
    levelLoop fl (some u) ps = true ↔
      ∃ p ∈ ps, p.1 = fl ∧ (p.2.getD [] = [] ∨ p.2 = some u) := by
  induction ps with
  | nil => simp [levelLoop]
  | cons p rest ih =>
    obtain ⟨lv, mj⟩ := p
    by_cases hlv : lv = fl
    · subst hlv
      rcases mj with _ | m
      · simp [levelLoop]
      · by_cases hm : m.isEmpty = true
        · have : m = [] := List.isEmpty_iff.mp hm
          subst this
          simp [levelLoop]
        · have hmne : m ≠ [] := fun h => hm (by simp [h])
          by_cases hu : u.isEmpty = true
          · have : u = [] := List.isEmpty_iff.mp hu
            subst this
            simp only [levelLoop, hm, Bool.false_eq_true, if_false, if_true]
            have hcond : ¬ (¬ ([] : Str).isEmpty = true ∧ m = []) := by
              rintro ⟨h1, _⟩
              exact h1 rfl
            simp only [hcond, if_false, ih]
            constructor
            · rintro ⟨q, hq, hprop⟩
              exact ⟨q, List.mem_cons_of_mem _ hq, hprop⟩
            · rintro ⟨q, hq, hprop⟩
              rcases List.mem_cons.mp hq with rfl | hq'
              · rcases hprop.2 with h2 | h2
                · simp at h2
                  exact absurd h2 hmne
                · simp at h2
                  exact absurd h2 hmne
              · exact ⟨q, hq', hprop⟩
          · have hune : ¬ u.isEmpty = true := hu
            by_cases hmu : m = u
            · subst hmu
              simp [levelLoop, hm, hune]
            · simp only [levelLoop, hm, Bool.false_eq_true, if_false, if_true]
              have hcond : ¬ (¬ u.isEmpty = true ∧ m = u) := by
                rintro ⟨_, h2⟩
                exact hmu h2
              simp only [hcond, if_false, ih]
              constructor
              · rintro ⟨q, hq, hprop⟩
                exact ⟨q, List.mem_cons_of_mem _ hq, hprop⟩
              · rintro ⟨q, hq, hprop⟩
                rcases List.mem_cons.mp hq with rfl | hq'
                · rcases hprop.2 with h2 | h2
                  · simp at h2
                    exact absurd h2 hmne
                  · simp at h2
                    exact absurd h2 hmu
                · exact ⟨q, hq', hprop⟩
    · simp only [levelLoop, hlv, if_false, ih]
      constructor
      · rintro ⟨q, hq, hprop⟩
        exact ⟨q, List.mem_cons_of_mem _ hq, hprop⟩
      · rintro ⟨q, hq, hprop⟩
        rcases List.mem_cons.mp hq with rfl | hq'
        · exact absurd hprop.1 hlv
        · exact ⟨q, hq', hprop⟩

/-- C4: for a non-empty filter level and filter major, `check_level_match`
returns false when the event level parses to no pairs, and otherwise returns
true exactly when some parsed pair carries the (stripped) filter level
together with either no major annotation (the level applies to all majors)
or precisely the (stripped, uppercased) filter major.  The scan is in parsed
order with an early exit, which the existential characterizes. -/
theorem C4_check_level_match_spec :
    ∀ el fl fm : Str, fl ≠ [] → fm ≠ [] →
      (parse_level_major_pairs el = [] → check_level_match el fl fm = false) ∧
      (check_level_match el fl fm = true ↔
        ∃ p ∈ parse_level_major_pairs el, p.1 = wtrim fl ∧
          (p.2.getD [] = [] ∨ p.2 = some (upperStr (wtrim fm)))) := by
  intro el fl fm hfl hfm
  have hfl' : fl.isEmpty = false := by
    rcases fl with _ | _
    · exact absurd rfl hfl
    · rfl
  have hfm' : fm.isEmpty = false := by
    rcases fm with _ | _
    · exact absurd rfl hfm
    · rfl
  constructor
  · intro hp
    unfold check_level_match
    by_cases hel : el.isEmpty = true
    · simp [hel]
    · simp [hel, hfl', hp]
  · unfold check_level_match
    by_cases hel : el.isEmpty = true
    · have : el = [] := List.isEmpty_iff.mp hel
      subst this
      simp [parse_level_major_pairs]
    · simp only [hel, hfl', Bool.or_self, Bool.false_eq_true, if_false]
      by_cases hps : (parse_level_major_pairs el).isEmpty = true
      · have : parse_level_major_pairs el = [] := List.isEmpty_iff.mp hps
        rw [this]
        simp [hps]
      · simp only [hps, Bool.false_eq_true, if_false, hfm']
        exact levelLoop_eq_true_iff (wtrim fl) (upperStr (wtrim fm))
          (parse_level_major_pairs el)

/-- Witness for C4 at a concrete annotated level string. -/
theorem C4_check_level_match_spec_witness :
    chars "5" ≠ ([] : Str) ∧ chars "cs" ≠ ([] : Str) ∧
      (check_level_match (chars "5 (CS) 7") (chars "5") (chars "cs") = true ↔
        ∃ p ∈ parse_level_major_pairs (chars "5 (CS) 7"), p.1 = wtrim (chars "5") ∧
          (p.2.getD [] = [] ∨ p.2 = some (upperStr (wtrim (chars "cs"))))) :=
  ⟨by decide, by decide,
    (C4_check_level_match_spec (chars "5 (CS) 7") (chars "5") (chars "cs")
      (by decide) (by decide)).2⟩

/-! ### Deduplication invariants of the extraction accumulator -/

theorem insertEvent_pairwise {acc : List Event} {n : Event}
    (h : List.Pairwise (fun a b => ¬ sameKey a b) acc) :
    List.Pairwise (fun a b => ¬ sameKey a b) (insertEvent acc n) := by
  unfold insertEvent
  by_cases h1 : n.course_code.isEmpty = true
  · simp [h1, h]
  · simp only [h1, Bool.false_eq_true, if_false]
    by_cases h2 : acc.any (fun e => decide (sameKey e n)) = true
    · simp [h2, h]
    · simp only [h2, Bool.false_eq_true, if_false]
      rw [List.pairwise_append]
      refine ⟨h, List.pairwise_singleton _ _, ?_⟩
      intro a ha b hb hk
      have hb' : b = n := List.mem_singleton.mp hb
      subst hb'
      exact h2 (List.any_eq_true.mpr ⟨a, ha, decide_eq_true hk⟩)

theorem accumulateBatch_pairwise (page : List RawRow) :
    ∀ acc : List Event, List.Pairwise (fun a b => ¬ sameKey a b) acc →
      List.Pairwise (fun a b => ¬ sameKey a b) (accumulateBatch acc page) := by
  induction page with
  | nil => intro acc h; exact h
  | cons r rs ih =>
    intro acc h
    exact ih (insertEvent acc (normalize_event r)) (insertEvent_pairwise h)

theorem foldl_batches_pairwise (batches : List (List RawRow)) :
    ∀ acc : List Event, List.Pairwise (fun a b => ¬ sameKey a b) acc →
      List.Pairwise (fun a b => ¬ sameKey a b) (batches.foldl accumulateBatch acc) := by
  induction batches with
  | nil => intro acc h; exact h
  | cons page rest ih =>
    intro acc h
    exact ih (accumulateBatch acc page) (accumulateBatch_pairwise page acc h)

theorem foldl_accumulate_flatten (batches : List (List RawRow)) (acc : List Event) :
    batches.foldl accumulateBatch acc =
      (batches.flatten).foldl (fun a r => insertEvent a (normalize_event r)) acc :=
  (List.foldl_flatten _ _ _).symm

/-- Membership in the accumulator characterized by first occurrence: an
event in the fold's output either was already accumulated, or it has a
non-empty course code, no accumulated event shares its key, and it is the
first event of the normalized input sequence bearing its key. -/
theorem mem_foldl_insert (raws : List RawRow) :
    ∀ (acc : List Event) (e : Event),
      e ∈ raws.foldl (fun a r => insertEvent a (normalize_event r)) acc →
      e ∈ acc ∨
        (e.course_code ≠ [] ∧ (∀ a ∈ acc, ¬ sameKey a e) ∧
          ∃ l1 l2, raws.map normalize_event = l1 ++ e :: l2 ∧ ∀ x ∈ l1, ¬ sameKey x e) := by
  induction raws with
  | nil => intro acc e h; exact Or.inl h
  | cons r rs ih =>
    intro acc e h
    rw [List.foldl_cons] at h
    rcases ih (insertEvent acc (normalize_event r)) e h with hmem | hrec
    · -- the event was already in the accumulator extended by this row
      unfold insertEvent at hmem
      by_cases h1 : (normalize_event r).course_code.isEmpty = true
      · rw [if_pos h1] at hmem
        exact Or.inl hmem
      · rw [if_neg h1] at hmem
        by_cases h2 : acc.any (fun x => decide (sameKey x (normalize_event r))) = true
        · rw [if_pos h2] at hmem
          exact Or.inl hmem
        · rw [if_neg h2] at hmem
          rcases List.mem_append.mp hmem with hacc | hn
          · exact Or.inl hacc
          · have he : e = normalize_event r := List.mem_singleton.mp hn
            refine Or.inr ⟨?_, ?_, [], rs.map normalize_event, ?_, ?_⟩
            · rw [he]
              intro hnil
              exact h1 (by simp [hnil])
            · intro a ha hk
              rw [he] at hk
              exact h2 (List.any_eq_true.mpr ⟨a, ha, decide_eq_true hk⟩)
            · rw [List.map_cons, he]
              rfl
            · intro x hx
              exact absurd hx (List.not_mem_nil x)
    · -- the event entered on a later row
      obtain ⟨hcode, hnacc, l1, l2, hsplit, hl1⟩ := hrec
      have hsub : ∀ a ∈ acc, a ∈ insertEvent acc (normalize_event r) := by
        intro a ha
        unfold insertEvent
        split
        · exact ha
        · split
          · exact ha
          · exact List.mem_append_left _ ha
      have hnr : ¬ sameKey (normalize_event r) e := by
        intro hk
        unfold insertEvent at hnacc
        by_cases h1 : (normalize_event r).course_code.isEmpty = true
        · have : e.course_code = [] := by
            rcases hk with ⟨hc, _⟩
            rw [← hc]
            exact List.isEmpty_iff.mp h1
          exact hcode this
        · by_cases h2 : acc.any (fun x => decide (sameKey x (normalize_event r))) = true
          · rcases List.any_eq_true.mp h2 with ⟨a0, ha0, hk0⟩
            have hk0' : sameKey a0 (normalize_event r) := of_decide_eq_true hk0
            have : sameKey a0 e := ⟨hk0'.1.trans hk.1, hk0'.2.trans hk.2⟩
            rw [if_neg h1, if_pos h2] at hnacc
            exact hnacc a0 ha0 this
          · rw [if_neg h1, if_neg h2] at hnacc
            exact hnacc (normalize_event r) (List.mem_append_right _ (List.mem_singleton.mpr rfl)) hk
      refine Or.inr ⟨hcode, ?_, normalize_event r :: l1, l2, ?_, ?_⟩
      · intro a ha
        exact hnacc a (hsub a ha)
      · rw [List.map_cons, hsplit]
        rfl
      · intro x hx
        rcases List.mem_cons.mp hx with rfl | hx'
        · exact hnr
        · exact hl1 x hx'

/-- A concrete raw row with a course code and a date, used to exercise the
extraction paths. -/
def dupRow : RawRow :=
  [(chars "course_code", chars "CSC1"), (chars "date", chars "2025-12-21")]

/-- C2 (counterexample): the single-image path of
`extract_all_events_from_file` performs no duplicate check (app.py lines
373-376), so a response repeating one row yields two surviving Events with
the same (course_code, date) key — the claimed invariant fails for the
image branch. -/
theorem C2_counterexample_image_duplicates :
    extract_all_events_image [dupRow, dupRow] =
      [normalize_event dupRow, normalize_event dupRow] ∧
    sameKey (normalize_event dupRow) (normalize_event dupRow) := by
  constructor
  · decide
  · exact ⟨rfl, rfl⟩

/-- C2 (amended): on the PDF path of `extract_all_events_from_file` —
per-page image extraction batches followed, when the threshold triggers, by
the text-extraction batch, all using the same accumulation step — no two
surviving Events share a (course_code, date) key, and every survivor is the
normalization of the earliest raw occurrence of its key (it has a non-empty
course code and a non-empty date, and no earlier normalized row of the
flattened batch sequence bears its key; later duplicates are dropped, not
merged).  The single-image path appends every normalized event with a
non-empty course code without any duplicate check, so the invariant does not
extend to it. -/
theorem C2_amended_pdf_dedup_first_wins :
    ∀ batches : List (List RawRow),
      List.Pairwise (fun a b => ¬ sameKey a b) (extract_all_events_pdf batches) ∧
      ∀ e ∈ extract_all_events_pdf batches,
        e.course_code ≠ [] ∧ e.date ≠ [] ∧
        ∃ l1 l2, (batches.flatten).map normalize_event = l1 ++ e :: l2 ∧
          ∀ x ∈ l1, ¬ sameKey x e := by
  intro batches
  constructor
  · exact List.Pairwise.sublist (List.filter_sublist _)
      (foldl_batches_pairwise batches [] List.Pairwise.nil)
  · intro e he
    unfold extract_all_events_pdf validate_and_fix_events at he
    rcases List.mem_filter.mp he with ⟨hmem, hpred⟩
    have hcode : e.course_code ≠ [] := by
      intro hnil
      simp [hnil] at hpred
    have hdate : e.date ≠ [] := by
      intro hnil
      simp [hnil] at hpred
    rw [foldl_accumulate_flatten] at hmem
    rcases mem_foldl_insert batches.flatten [] e hmem with hfalse | hrec
    · exact absurd hfalse (List.not_mem_nil e)
    · obtain ⟨_, _, l1, l2, hsplit, hl1⟩ := hrec
      exact ⟨hcode, hdate, l1, l2, hsplit, hl1⟩

/-- Witness for C2 (amended) at a concrete one-page batch. -/
theorem C2_amended_pdf_dedup_first_wins_witness :
    (normalize_event dupRow).course_code ≠ [] ∧ (normalize_event dupRow).date ≠ [] ∧
      ∃ l1 l2,
        (([[dupRow]] : List (List RawRow)).flatten).map normalize_event =
          l1 ++ normalize_event dupRow :: l2 ∧
        ∀ x ∈ l1, ¬ sameKey x (normalize_event dupRow) :=
  (C2_amended_pdf_dedup_first_wins [[dupRow]]).2 (normalize_event dupRow)
    (by
      have h : extract_all_events_pdf [[dupRow]] = [normalize_event dupRow] := by decide
      rw [h]
      exact List.mem_singleton.mpr rfl)

/-! ### Idempotence of normalization -/

/-- The raw row of the idempotence counterexample: its date is rewritten to
ISO form, but its description keeps the raw date line, so feeding the Event
back re-derives a different description. -/
def idemRow : RawRow :=
  [(chars "date", chars "23/12/2025"), (chars "course_code", chars "CSC331")]

/-- C3 (counterexample): normalization is not idempotent.  For the row with
date `23/12/2025`, the produced Event has `date = 2025-12-23` but
`description = Date: 23/12/2025` (the description is built from the raw date
string, app.py line 275, while the stored date is the ISO form).  Feeding
the Event back through its canonical keys rebuilds the description from the
ISO date, so the second Event differs from the first. -/
theorem C3_counterexample_not_idempotent :
    normalize_event (canonical_row (normalize_event idemRow)) ≠ normalize_event idemRow := by
  decide

theorem dropWhile_dropWhile (p : Char → Bool) (l : Str) :
    (l.dropWhile p).dropWhile p = l.dropWhile p := by
  induction l with
  | nil => rfl
  | cons a l ih =>
    by_cases h : p a = true
    · simp [List.dropWhile_cons, h, ih]
    · simp [List.dropWhile_cons, h]

theorem length_dropWhile_le_len (p : Char → Bool) (l : Str) :
    (l.dropWhile p).length ≤ l.length := by
  induction l with
  | nil => simp
  | cons a l ih =>
    simp only [List.dropWhile]
    split
    · exact Nat.le_succ_of_le ih
    · simp

theorem dropWhile_eq_self_head {a : Char} {l : Str}
    (h : (a :: l).dropWhile wsp = a :: l) : wsp a = false := by
  by_cases ha : wsp a = true
  · rw [List.dropWhile_cons, if_pos ha] at h
    have := length_dropWhile_le_len wsp l
    rw [h] at this
    simp at this
  · exact eq_false_of_ne_true ha

theorem dropWhile_isSuffix (p : Char → Bool) (l : Str) : l.dropWhile p <:+ l := by
  induction l with
  | nil => exact List.suffix_refl _
  | cons a l ih =>
    by_cases h : p a = true
    · have hdw : (a :: l).dropWhile p = l.dropWhile p := by simp [List.dropWhile_cons, h]
      rw [hdw]
      exact ih.trans (List.suffix_cons a l)
    · have hdw : (a :: l).dropWhile p = a :: l := by simp [List.dropWhile_cons, h]
      rw [hdw]

theorem dropWhile_eq_self_of_prefix {z y : Str} (hz : z <+: y)
    (hy : y.dropWhile wsp = y) : z.dropWhile wsp = z := by
  rcases z with _ | ⟨a, z'⟩
  · rfl
  · obtain ⟨t, ht⟩ := hz
    have hy' : (a :: (z' ++ t)).dropWhile wsp = a :: (z' ++ t) := by
      rw [← List.cons_append, ht]
      exact hy
    have ha : wsp a = false := dropWhile_eq_self_head hy'
    rw [List.dropWhile_cons, if_neg (by simp [ha])]

/-- Python's `strip` is idempotent. -/
theorem wtrim_idem (s : Str) : wtrim (wtrim s) = wtrim s := by
  set y := s.dropWhile wsp with hy_def
  have hy : y.dropWhile wsp = y := dropWhile_dropWhile wsp s
  have hw_def : wtrim s = (y.reverse.dropWhile wsp).reverse := rfl
  set w := (y.reverse.dropWhile wsp).reverse with hw
  have hsuf : y.reverse.dropWhile wsp <:+ y.reverse := dropWhile_isSuffix wsp y.reverse
  have hpre : w <+: y := by
    have := List.reverse_prefix.mpr hsuf
    rwa [List.reverse_reverse] at this
  have hw1 : w.dropWhile wsp = w := dropWhile_eq_self_of_prefix hpre hy
  have hw2 : w.reverse.dropWhile wsp = w.reverse := by
    rw [hw, List.reverse_reverse]
    exact dropWhile_dropWhile wsp y.reverse
  show (((wtrim s).dropWhile wsp).reverse.dropWhile wsp).reverse = wtrim s
  rw [hw_def, hw1, hw2, List.reverse_reverse]

/-- Outputs of `get_value` are fixed points of stripping: the result is
either empty or already stripped. -/
theorem get_value_wtrim (ev : RawRow) (ks : List Str) :
    wtrim (get_value ev ks) = get_value ev ks := by
  induction ks with
  | nil => rfl
  | cons k ks ih =>
    simp only [get_value]
    rcases hlk : lookupRow ev k with _ | v
    · exact ih
    · by_cases hv : v.isEmpty = true
      · simp only [hv, if_true]
        exact ih
      · simp only [hv, Bool.false_eq_true, if_false]
        exact wtrim_idem v

/-- Re-normalizing an Event through its canonical row reproduces it whenever
its fields are fixed points of the relevant extraction and cleaning passes
and its derived fields agree with its base fields. -/
theorem normalize_canonical_eq (e : Event)
    (htt : wtrim e.time = e.time) (htc : cleanTime e.time = e.time)
    (hlt : wtrim e.major_level = e.major_level)
    (hlc : cleanLevel e.major_level = e.major_level)
    (hmt : wtrim e.offered_to = e.offered_to)
    (hmc : cleanMajor e.offered_to = e.offered_to)
    (hct : wtrim e.course_code = e.course_code)
    (hnt : wtrim e.course_name = e.course_name)
    (hdt : wtrim e.date = e.date) (hdr : dateResolve e.date = e.date)
    (htitle : e.title = titleOf e.course_code e.course_name)
    (hdesc : e.description = descrOf e.date e.time e.major_level e.offered_to)
    (hconf : e.confidence = confidence095) :
    normalize_event (canonical_row e) = e := by
  have gd : get_value (canonical_row e) date_keys = e.date := by
    have hred : get_value (canonical_row e) date_keys =
        if e.date.isEmpty then [] else wtrim e.date := rfl
    rw [hred]
    by_cases hd : e.date.isEmpty = true
    · rw [if_pos hd]
      exact (List.isEmpty_iff.mp hd).symm
    · rw [if_neg hd]
      exact hdt
  have gt : get_value (canonical_row e) time_keys = e.time := by
    have hred : get_value (canonical_row e) time_keys =
        if e.time.isEmpty then [] else wtrim e.time := rfl
    rw [hred]
    by_cases hd : e.time.isEmpty = true
    · rw [if_pos hd]
      exact (List.isEmpty_iff.mp hd).symm
    · rw [if_neg hd]
      exact htt
  have gl : get_value (canonical_row e) level_keys = e.major_level := by
    have hred : get_value (canonical_row e) level_keys =
        if e.major_level.isEmpty then [] else wtrim e.major_level := rfl
    rw [hred]
    by_cases hd : e.major_level.isEmpty = true
    · rw [if_pos hd]
      exact (List.isEmpty_iff.mp hd).symm
    · rw [if_neg hd]
      exact hlt
  have gm : get_value (canonical_row e) major_keys = e.offered_to := by
    have hred : get_value (canonical_row e) major_keys =
        if e.offered_to.isEmpty then [] else wtrim e.offered_to := rfl
    rw [hred]
    by_cases hd : e.offered_to.isEmpty = true
    · rw [if_pos hd]
      exact (List.isEmpty_iff.mp hd).symm
    · rw [if_neg hd]
      exact hmt
  have gc : get_value (canonical_row e) code_keys = e.course_code := by
    have hred : get_value (canonical_row e) code_keys =
        if e.course_code.isEmpty then [] else wtrim e.course_code := rfl
    rw [hred]
    by_cases hd : e.course_code.isEmpty = true
    · rw [if_pos hd]
      exact (List.isEmpty_iff.mp hd).symm
    · rw [if_neg hd]
      exact hct
  have gn : get_value (canonical_row e) name_keys = e.course_name := by
    have hred : get_value (canonical_row e) name_keys =
        if e.course_name.isEmpty then [] else wtrim e.course_name := rfl
    rw [hred]
    by_cases hd : e.course_name.isEmpty = true
    · rw [if_pos hd]
      exact (List.isEmpty_iff.mp hd).symm
    · rw [if_neg hd]
      exact hnt
  have htime : (if (get_value (canonical_row e) time_keys).isEmpty then
      get_value (canonical_row e) time_keys
    else cleanTime (get_value (canonical_row e) time_keys)) = e.time := by
    rw [gt]
    by_cases hd : e.time.isEmpty = true
    · rw [if_pos hd]
    · rw [if_neg hd]
      exact htc
  have hlevel : (if (get_value (canonical_row e) level_keys).isEmpty then
      get_value (canonical_row e) level_keys
    else cleanLevel (get_value (canonical_row e) level_keys)) = e.major_level := by
    rw [gl]
    by_cases hd : e.major_level.isEmpty = true
    · rw [if_pos hd]
    · rw [if_neg hd]
      exact hlc
  have hmajor : (if (get_value (canonical_row e) major_keys).isEmpty then
      get_value (canonical_row e) major_keys
    else cleanMajor (get_value (canonical_row e) major_keys)) = e.offered_to := by
    rw [gm]
    by_cases hd : e.offered_to.isEmpty = true
    · rw [if_pos hd]
    · rw [if_neg hd]
      exact hmc
  show ({
    date := dateResolve (get_value (canonical_row e) date_keys)
    time := if (get_value (canonical_row e) time_keys).isEmpty then
        get_value (canonical_row e) time_keys
      else cleanTime (get_value (canonical_row e) time_keys)
    title := titleOf (get_value (canonical_row e) code_keys)
      (get_value (canonical_row e) name_keys)
    description := descrOf (get_value (canonical_row e) date_keys)
      (if (get_value (canonical_row e) time_keys).isEmpty then
        get_value (canonical_row e) time_keys
      else cleanTime (get_value (canonical_row e) time_keys))
      (if (get_value (canonical_row e) level_keys).isEmpty then
        get_value (canonical_row e) level_keys
      else cleanLevel (get_value (canonical_row e) level_keys))
      (if (get_value (canonical_row e) major_keys).isEmpty then
        get_value (canonical_row e) major_keys
      else cleanMajor (get_value (canonical_row e) major_keys))
    course_code := get_value (canonical_row e) code_keys
    course_name := get_value (canonical_row e) name_keys
    major_level := if (get_value (canonical_row e) level_keys).isEmpty then
        get_value (canonical_row e) level_keys
      else cleanLevel (get_value (canonical_row e) level_keys)
    offered_to := if (get_value (canonical_row e) major_keys).isEmpty then
        get_value (canonical_row e) major_keys
      else cleanMajor (get_value (canonical_row e) major_keys)
    confidence := confidence095 } : Event) = e
  rw [htime, hlevel, hmajor, gd, gc, gn, hdr, ← htitle, ← hdesc, ← hconf]

/-- C3 (amended): normalization is idempotent exactly up to its cleaning
passes and the date rewrite.  For every raw row, feeding the produced Event
back through its canonical keys reproduces it identically in every field,
provided the Event's time, level, and major fields are fixed points of their
stripping and cleaning passes and the date parse leaves the extracted date
string unchanged (as when parsing failed or the date was already ISO).
Without those conditions a second normalization can change the Event: the
description's `Date:` line is rebuilt from the ISO date rather than the raw
one, and the time and level cleanups are not idempotent in general
(`1 2 3` collapses further, a residual `Level` substring is stripped again). -/
theorem C3_amended_normalize_idempotent :
    ∀ row : RawRow,
      wtrim (normalize_event row).time = (normalize_event row).time →
      cleanTime (normalize_event row).time = (normalize_event row).time →
      wtrim (normalize_event row).major_level = (normalize_event row).major_level →
      cleanLevel (normalize_event row).major_level = (normalize_event row).major_level →
      wtrim (normalize_event row).offered_to = (normalize_event row).offered_to →
      cleanMajor (normalize_event row).offered_to = (normalize_event row).offered_to →
      dateResolve (get_value row date_keys) = get_value row date_keys →
      normalize_event (canonical_row (normalize_event row)) = normalize_event row := by
  intro row h1 h2 h3 h4 h5 h6 h7
  apply normalize_canonical_eq
  · exact h1
  · exact h2
  · exact h3
  · exact h4
  · exact h5
  · exact h6
  · exact get_value_wtrim row code_keys
  · exact get_value_wtrim row name_keys
  · show wtrim (dateResolve (get_value row date_keys)) = dateResolve (get_value row date_keys)
    rw [h7]
    exact get_value_wtrim row date_keys
  · show dateResolve (dateResolve (get_value row date_keys)) =
      dateResolve (get_value row date_keys)
    rw [h7]
    exact h7
  · rfl
  · show descrOf (get_value row date_keys) (normalize_event row).time
        (normalize_event row).major_level (normalize_event row).offered_to =
      descrOf (dateResolve (get_value row date_keys)) (normalize_event row).time
        (normalize_event row).major_level (normalize_event row).offered_to
    rw [h7]
  · rfl

/-- A fully normalized concrete row: ISO date, clean time, clean level,
clean major — every cleaning pass fixes it. -/
def stableRow : RawRow :=
  [(chars "course_code", chars "CSC331"), (chars "date", chars "2025-12-23"),
   (chars "time", chars "9:00 to 11:00"), (chars "major_level", chars "5,7"),
   (chars "offered_to", chars "CS,AI")]

/-- Witness for C3 (amended) at a fully normalized concrete row: its time,
level and major fields are cleaning fixed points and its date is already
ISO, so the second normalization reproduces the Event exactly. -/
theorem C3_amended_normalize_idempotent_witness :
    (wtrim (normalize_event stableRow).time = (normalize_event stableRow).time ∧
      cleanTime (normalize_event stableRow).time = (normalize_event stableRow).time ∧
      wtrim (normalize_event stableRow).major_level = (normalize_event stableRow).major_level ∧
      cleanLevel (normalize_event stableRow).major_level =
        (normalize_event stableRow).major_level ∧
      wtrim (normalize_event stableRow).offered_to = (normalize_event stableRow).offered_to ∧
      cleanMajor (normalize_event stableRow).offered_to =
        (normalize_event stableRow).offered_to ∧
      dateResolve (get_value stableRow date_keys) = get_value stableRow date_keys) ∧
    normalize_event (canonical_row (normalize_event stableRow)) =
      normalize_event stableRow :=
  ⟨⟨by decide, by decide, by decide, by decide, by decide, by decide, by decide⟩,
    C3_amended_normalize_idempotent stableRow (by decide) (by decide) (by decide)
      (by decide) (by decide) (by decide) (by decide)⟩
